import Mathlib

/-!
Verification of the adventure-parser module.

The module offers two pattern extractors over journal text and two tabular
loaders.  The extractors are embedded here at the character level, following
the Python regular expressions literally:

* `extract_journal_dates` scans with the pattern
  `\b(0[1-9]|1[0-2])/(0[1-9]|[12][0-9]|3[01])/([12]\d{3})\b`,
  collects the three capture groups of every non-overlapping left-to-right
  match and joins them with `/`.
* `extract_secret_codes` scans with the pattern `AZMAR-\d{3}` and collects
  every non-overlapping left-to-right match.

The scan semantics mirror `re.findall`: try the pattern at each position from
the left; on success emit the match and resume right after it, on failure
advance one character.  `\b` is the word-boundary assertion, a position where
exactly one side is a word character (letter, digit or underscore); the
character classes are modelled at ASCII precision.
-/

namespace Adventure

/-- The regex word-character class `\w`: letters, digits and the underscore
(ASCII model of Python's default Unicode classes). -/
def isWordChar (c : Char) : Bool := c.isAlphanum || c == '_'

/-- The `\b` assertion before the first pattern character.  Since a date
match always begins with a digit (a word character), the boundary holds
exactly when the preceding character is absent or not a word character. -/
def noWordBefore : Option Char → Bool
  | none => true
  | some c => !isWordChar c

/-- The `\b` assertion after the last pattern character.  Since a date match
always ends with a digit, the boundary holds exactly when the following
character is absent or not a word character. -/
def noWordAfter : List Char → Bool
  | [] => true
  | c :: _ => !isWordChar c

/-- The month alternation `0[1-9]|1[0-2]`. -/
def monthOk (m1 m2 : Char) : Bool :=
  (m1 == '0' && ('1' ≤ m2 && m2 ≤ '9')) ||
  (m1 == '1' && ('0' ≤ m2 && m2 ≤ '2'))

/-- The day alternation `0[1-9]|[12][0-9]|3[01]`. -/
def dayOk (d1 d2 : Char) : Bool :=
  (d1 == '0' && ('1' ≤ d2 && d2 ≤ '9')) ||
  ((d1 == '1' || d1 == '2') && ('0' ≤ d2 && d2 ≤ '9')) ||
  (d1 == '3' && (d2 == '0' || d2 == '1'))

/-- The year group `[12]\d{3}`. -/
def yearOk (y1 y2 y3 y4 : Char) : Bool :=
  (y1 == '1' || y1 == '2') && y2.isDigit && y3.isDigit && y4.isDigit

/-- Whether the date pattern
`\b(0[1-9]|1[0-2])/(0[1-9]|[12][0-9]|3[01])/([12]\d{3})\b` matches at the
start of `s`, where `prev` is the character just before this position
(`none` at the start of the text). -/
def dateMatchAt (prev : Option Char) : List Char → Bool
  | m1 :: m2 :: c1 :: d1 :: d2 :: c2 :: y1 :: y2 :: y3 :: y4 :: rest =>
    noWordBefore prev && monthOk m1 m2 && c1 == '/' && dayOk d1 d2 &&
    c2 == '/' && yearOk y1 y2 y3 y4 && noWordAfter rest
  | _ => false

/-- The `re.findall` scan for the date pattern: the list of capture-group
triples (month, day, year) of the non-overlapping left-to-right matches. -/
def findDateGroups : Option Char → List Char → List (String × String × String)
  | _, [] => []
  | prev, m1 :: m2 :: c1 :: d1 :: d2 :: c2 :: y1 :: y2 :: y3 :: y4 :: rest =>
    if dateMatchAt prev (m1 :: m2 :: c1 :: d1 :: d2 :: c2 :: y1 :: y2 :: y3 :: y4 :: rest) then
      (⟨[m1, m2]⟩, ⟨[d1, d2]⟩, ⟨[y1, y2, y3, y4]⟩) ::
        findDateGroups (some y4) rest
    else
      findDateGroups (some m1) (m2 :: c1 :: d1 :: d2 :: c2 :: y1 :: y2 :: y3 :: y4 :: rest)
  | _, c :: rest => findDateGroups (some c) rest

/-- `extract_journal_dates`: run the date scan over the text and join each
group triple with `/`, exactly as the source's list comprehension does. -/
def extract_journal_dates (journal_text : String) : List String :=
  (findDateGroups none journal_text.data).map
    (fun g => g.1 ++ "/" ++ g.2.1 ++ "/" ++ g.2.2)

/-- Whether the code pattern `AZMAR-\d{3}` matches at the start of `s`.
No boundary assertion on either side. -/
def codeMatchAt : List Char → Bool
  | a :: z :: m :: a2 :: r :: hy :: d1 :: d2 :: d3 :: _ =>
    a == 'A' && z == 'Z' && m == 'M' && a2 == 'A' && r == 'R' && hy == '-' &&
    d1.isDigit && d2.isDigit && d3.isDigit
  | _ => false

/-- The `re.findall` scan for the code pattern: the matched substrings of the
non-overlapping left-to-right matches. -/
def findCodes : List Char → List String
  | [] => []
  | a :: z :: m :: a2 :: r :: hy :: d1 :: d2 :: d3 :: rest =>
    if codeMatchAt (a :: z :: m :: a2 :: r :: hy :: d1 :: d2 :: d3 :: rest) then
      String.mk [a, z, m, a2, r, hy, d1, d2, d3] :: findCodes rest
    else
      findCodes (z :: m :: a2 :: r :: hy :: d1 :: d2 :: d3 :: rest)
  | _ :: rest => findCodes rest

/-- `extract_secret_codes`: run the code scan over the text. -/
def extract_secret_codes (journal_text : String) : List String :=
  findCodes journal_text.data

/-! ### Specification-side views

The scans above skip over the interior of a match.  The spec instead talks
about "every occurrence": the following collectors visit every position of
the text, one character at a time, and record the pattern matches found
there.  The central lemmas below show both views agree, because two
pattern matches can never overlap. -/

/-- Every boundary-delimited date match in the text, collected by visiting
each position from the left; the ten matched characters are kept
unmodified, in order of first character position, duplicates preserved. -/
def allDateMatches : Option Char → List Char → List String
  | _, [] => []
  | prev, c :: rest =>
    (if dateMatchAt prev (c :: rest) then [String.mk ((c :: rest).take 10)] else []) ++
      allDateMatches (some c) rest

/-- Every code match in the text, collected by visiting each position from
the left. -/
def allCodeMatches : List Char → List String
  | [] => []
  | c :: rest =>
    (if codeMatchAt (c :: rest) then [String.mk ((c :: rest).take 9)] else []) ++
      allCodeMatches rest

/-- The positions (0-based character indices, the counter starting at `i`)
at which the date pattern matches, in increasing order. -/
def dateMatchPositions : Option Char → Nat → List Char → List Nat
  | _, _, [] => []
  | prev, i, c :: rest =>
    (if dateMatchAt prev (c :: rest) then [i] else []) ++
      dateMatchPositions (some c) (i + 1) rest

/-- The positions at which the code pattern matches, in increasing order. -/
def codeMatchPositions : Nat → List Char → List Nat
  | _, [] => []
  | i, c :: rest =>
    (if codeMatchAt (c :: rest) then [i] else []) ++ codeMatchPositions (i + 1) rest

/-- The numeric value of an ASCII digit character. -/
def digitVal (c : Char) : Nat := c.toNat - '0'.toNat

/-! ### Tabular loader -/

/-- Split a list of characters at every occurrence of `sep` (the separator
characters are dropped; adjacent separators give empty fields). -/
def splitOnChar (sep : Char) : List Char → List (List Char)
  | [] => [[]]
  | c :: rest =>
    if c == sep then [] :: splitOnChar sep rest
    else
      match splitOnChar sep rest with
      | [] => [[c]]
      | w :: ws => (c :: w) :: ws

/-- Modelled from the spec: the body of `load_location_notes` is a single
call to the external tabular-parsing library (`read_csv` with a tab
separator), which is not part of this repository's sources.  The spec
describes its behaviour as: treat the first line as the header row, split
every line on the horizontal-tab character, no quoting or escaping support;
each data row becomes a record mapping column names to cell strings. -/
def load_location_notes (content : String) : List (List (String × String)) :=
  match (splitOnChar '\n' content.data).map (fun line => (splitOnChar '\t' line).map String.mk) with
  | [] => []
  | header :: rows => rows.map (fun row => header.zip row)

end Adventure

namespace Adventure

lemma isDigit_of_between {lo hi c : Char} (hlo : '0' ≤ lo) (hhi : hi ≤ '9')
    (h1 : lo ≤ c) (h2 : c ≤ hi) : c.isDigit = true := by
  simp only [Char.isDigit, Bool.and_eq_true, decide_eq_true_eq]
  exact ⟨le_trans hlo h1, le_trans h2 hhi⟩

lemma isWordChar_of_isDigit {c : Char} (h : c.isDigit = true) : isWordChar c = true := by
  simp [isWordChar, Char.isAlphanum, h]

lemma beq_eq_false_of_isDigit {c d : Char} (hc : c.isDigit = true)
    (hd : d.isDigit = false) : (c == d) = false := by
  cases h : c == d
  · rfl
  · rw [beq_iff_eq] at h
    subst h
    rw [hc] at hd
    exact absurd hd (by simp)

lemma codeMatchAt_false_of_head {c : Char} (hc : (c == 'A') = false) (l : List Char) :
    codeMatchAt (c :: l) = false := by
  rw [codeMatchAt.eq_def]
  split
  next a z m a2 r hy d1 d2 d3 rest heq =>
    injection heq with e1 heq
    subst e1
    simp [hc]
  next => rfl

lemma codeMatchAt_false_of_second {a c : Char} (hc : (c == 'Z') = false) (l : List Char) :
    codeMatchAt (a :: c :: l) = false := by
  rw [codeMatchAt.eq_def]
  split
  next a' z m a2 r hy d1 d2 d3 rest heq =>
    injection heq with e1 heq; injection heq with e2 heq
    subst e2
    simp [hc]
  next => rfl

lemma findCodes_eq_allCodeMatches : ∀ l : List Char, findCodes l = allCodeMatches l := by
  intro l
  induction l using findCodes.induct with
  | case1 => rfl
  | case2 a z m a2 r hy d1 d2 d3 rest h ih =>
    have hshape := h
    simp [codeMatchAt, and_assoc] at h
    obtain ⟨ha, hz, hm, ha2, hr, hhy, h1, h2, h3⟩ := h
    subst ha hz hm ha2 hr hhy
    have e1 : codeMatchAt ('Z' :: 'M' :: 'A' :: 'R' :: '-' :: d1 :: d2 :: d3 :: rest) = false :=
      codeMatchAt_false_of_head (by decide) _
    have e2 : codeMatchAt ('M' :: 'A' :: 'R' :: '-' :: d1 :: d2 :: d3 :: rest) = false :=
      codeMatchAt_false_of_head (by decide) _
    have e3 : codeMatchAt ('A' :: 'R' :: '-' :: d1 :: d2 :: d3 :: rest) = false :=
      codeMatchAt_false_of_second (by decide) _
    have e4 : codeMatchAt ('R' :: '-' :: d1 :: d2 :: d3 :: rest) = false :=
      codeMatchAt_false_of_head (by decide) _
    have e5 : codeMatchAt ('-' :: d1 :: d2 :: d3 :: rest) = false :=
      codeMatchAt_false_of_head (by decide) _
    have e6 : codeMatchAt (d1 :: d2 :: d3 :: rest) = false :=
      codeMatchAt_false_of_head (beq_eq_false_of_isDigit h1 (by decide)) _
    have e7 : codeMatchAt (d2 :: d3 :: rest) = false :=
      codeMatchAt_false_of_head (beq_eq_false_of_isDigit h2 (by decide)) _
    have e8 : codeMatchAt (d3 :: rest) = false :=
      codeMatchAt_false_of_head (beq_eq_false_of_isDigit h3 (by decide)) _
    rw [findCodes.eq_2, if_pos hshape]
    simp [allCodeMatches, hshape, e1, e2, e3, e4, e5, e6, e7, e8, ih]
  | case3 a z m a2 r hy d1 d2 d3 rest h ih =>
    rw [findCodes.eq_2, if_neg h, ih]
    simp [allCodeMatches, h]
  | case4 c rest h ih =>
    have hf : codeMatchAt (c :: rest) = false := by
      rw [codeMatchAt.eq_def]
      split
      next a z m a2 r hy d1 d2 d3 rest' heq =>
        injection heq with e1 e2
        exact absurd e2 (fun hh => h _ _ _ _ _ _ _ _ _ hh)
      next => rfl
    rw [findCodes.eq_3 _ _ h, ih]
    simp [allCodeMatches, hf]

end Adventure

namespace Adventure

lemma monthOk_shape {m1 m2 : Char} (h : monthOk m1 m2 = true) :
    (m1 = '0' ∨ m1 = '1') ∧ m2.isDigit = true := by
  simp only [monthOk, Bool.or_eq_true, Bool.and_eq_true, beq_iff_eq,
    decide_eq_true_eq, and_assoc] at h
  rcases h with ⟨h1, h2, h3⟩ | ⟨h1, h2, h3⟩
  · exact ⟨Or.inl h1, isDigit_of_between (by decide) (by decide) h2 h3⟩
  · exact ⟨Or.inr h1, isDigit_of_between (by decide) (by decide) h2 h3⟩

lemma dayOk_shape {d1 d2 : Char} (h : dayOk d1 d2 = true) :
    (d1 = '0' ∨ d1 = '1' ∨ d1 = '2' ∨ d1 = '3') ∧ d2.isDigit = true := by
  simp only [dayOk, Bool.or_eq_true, Bool.and_eq_true, beq_iff_eq,
    decide_eq_true_eq, and_assoc, or_assoc] at h
  rcases h with ⟨h1, h2, h3⟩ | ⟨h1, h2, h3⟩ | ⟨h1, h2⟩
  · exact ⟨Or.inl h1, isDigit_of_between (by decide) (by decide) h2 h3⟩
  · rcases h1 with h1 | h1
    · exact ⟨Or.inr (Or.inl h1), isDigit_of_between (by decide) (by decide) h2 h3⟩
    · exact ⟨Or.inr (Or.inr (Or.inl h1)), isDigit_of_between (by decide) (by decide) h2 h3⟩
  · rcases h2 with h2 | h2 <;> subst h2 <;>
      exact ⟨Or.inr (Or.inr (Or.inr h1)), by decide⟩

lemma yearOk_shape {y1 y2 y3 y4 : Char} (h : yearOk y1 y2 y3 y4 = true) :
    (y1 = '1' ∨ y1 = '2') ∧ y2.isDigit = true ∧ y3.isDigit = true ∧ y4.isDigit = true := by
  simp only [yearOk, Bool.or_eq_true, Bool.and_eq_true, beq_iff_eq, and_assoc] at h
  obtain ⟨h1, h2, h3, h4⟩ := h
  exact ⟨h1, h2, h3, h4⟩

end Adventure

namespace Adventure

lemma dateMatchAt_false_of_prev {c : Char} (hc : isWordChar c = true) (l : List Char) :
    dateMatchAt (some c) l = false := by
  rw [dateMatchAt.eq_def]
  split
  · simp [noWordBefore, hc]
  · rfl

lemma dateMatchAt_false_of_third {prev : Option Char} {a b c3 : Char}
    (hc : (c3 == '/') = false) (l : List Char) :
    dateMatchAt prev (a :: b :: c3 :: l) = false := by
  rw [dateMatchAt.eq_def]
  split
  next m1 m2 c1 d1 d2 c2 y1 y2 y3 y4 rest heq =>
    injection heq with e1 heq; injection heq with e2 heq; injection heq with e3 heq
    subst e3
    simp [hc]
  next => rfl

lemma dateMatchAt_false_of_sixth {prev : Option Char} {a b c3 d e f : Char}
    (hf : (f == '/') = false) (l : List Char) :
    dateMatchAt prev (a :: b :: c3 :: d :: e :: f :: l) = false := by
  rw [dateMatchAt.eq_def]
  split
  next m1 m2 c1 d1 d2 c2 y1 y2 y3 y4 rest heq =>
    injection heq with e1 heq; injection heq with e2 heq; injection heq with e3 heq
    injection heq with e4 heq; injection heq with e5 heq; injection heq with e6 heq
    subst e6
    simp [hf]
  next => rfl

lemma map_join_findDateGroups (prev : Option Char) (l : List Char) :
    (findDateGroups prev l).map (fun g => g.1 ++ "/" ++ g.2.1 ++ "/" ++ g.2.2) =
      allDateMatches prev l := by
  induction prev, l using findDateGroups.induct with
  | case1 x => rfl
  | case2 prev m1 m2 c1 d1 d2 c2 y1 y2 y3 y4 rest h ih =>
    have hshape := h
    simp only [dateMatchAt, Bool.and_eq_true, beq_iff_eq, and_assoc] at h
    obtain ⟨hb, hm, hc1, hd, hc2, hy, ha⟩ := h
    subst hc1 hc2
    obtain ⟨hm1, hm2⟩ := monthOk_shape hm
    obtain ⟨hd1, hd2⟩ := dayOk_shape hd
    obtain ⟨hy1, hy2, hy3, hy4⟩ := yearOk_shape hy
    have wm1 : isWordChar m1 = true := by rcases hm1 with h' | h' <;> subst h' <;> decide
    have wm2 : isWordChar m2 = true := isWordChar_of_isDigit hm2
    have wd1 : isWordChar d1 = true := by
      rcases hd1 with h' | h' | h' | h' <;> subst h' <;> decide
    have wd2 : isWordChar d2 = true := isWordChar_of_isDigit hd2
    have wy1 : isWordChar y1 = true := by rcases hy1 with h' | h' <;> subst h' <;> decide
    have wy2 : isWordChar y2 = true := isWordChar_of_isDigit hy2
    have wy3 : isWordChar y3 = true := isWordChar_of_isDigit hy3
    have e1 : dateMatchAt (some m1)
        (m2 :: '/' :: d1 :: d2 :: '/' :: y1 :: y2 :: y3 :: y4 :: rest) = false :=
      dateMatchAt_false_of_prev wm1 _
    have e2 : dateMatchAt (some m2)
        ('/' :: d1 :: d2 :: '/' :: y1 :: y2 :: y3 :: y4 :: rest) = false :=
      dateMatchAt_false_of_prev wm2 _
    have e3 : dateMatchAt (some '/')
        (d1 :: d2 :: '/' :: y1 :: y2 :: y3 :: y4 :: rest) = false :=
      dateMatchAt_false_of_sixth (beq_eq_false_of_isDigit hy3 (by decide)) _
    have e4 : dateMatchAt (some d1)
        (d2 :: '/' :: y1 :: y2 :: y3 :: y4 :: rest) = false :=
      dateMatchAt_false_of_prev wd1 _
    have e5 : dateMatchAt (some d2)
        ('/' :: y1 :: y2 :: y3 :: y4 :: rest) = false :=
      dateMatchAt_false_of_prev wd2 _
    have e6 : dateMatchAt (some '/') (y1 :: y2 :: y3 :: y4 :: rest) = false :=
      dateMatchAt_false_of_third (beq_eq_false_of_isDigit hy3 (by decide)) _
    have e7 : dateMatchAt (some y1) (y2 :: y3 :: y4 :: rest) = false :=
      dateMatchAt_false_of_prev wy1 _
    have e8 : dateMatchAt (some y2) (y3 :: y4 :: rest) = false :=
      dateMatchAt_false_of_prev wy2 _
    have e9 : dateMatchAt (some y3) (y4 :: rest) = false :=
      dateMatchAt_false_of_prev wy3 _
    rw [findDateGroups.eq_2, if_pos hshape]
    simp [allDateMatches, hshape, e1, e2, e3, e4, e5, e6, e7, e8, e9, ih]
    rfl
  | case3 prev m1 m2 c1 d1 d2 c2 y1 y2 y3 y4 rest h ih =>
    rw [findDateGroups.eq_2, if_neg h, ih]
    simp [allDateMatches, h]
  | case4 x c rest h ih =>
    have hf : dateMatchAt x (c :: rest) = false := by
      rw [dateMatchAt.eq_def]
      split
      next m1 m2 c1 d1 d2 c2 y1 y2 y3 y4 rest' heq =>
        injection heq with e1 e2
        exact absurd e2 (fun hh => h _ _ _ _ _ _ _ _ _ _ hh)
      next => rfl
    rw [findDateGroups.eq_3 _ _ _ h, ih]
    simp [allDateMatches, hf]

end Adventure

namespace Adventure

lemma dateMatchPositions_ge :
    ∀ (l : List Char) (prev : Option Char) (i : Nat),
      ∀ p ∈ dateMatchPositions prev i l, i ≤ p := by
  intro l
  induction l with
  | nil => intro prev i p hp; simp [dateMatchPositions] at hp
  | cons c rest ih =>
    intro prev i p hp
    simp only [dateMatchPositions, List.mem_append] at hp
    rcases hp with hp | hp
    · rcases Bool.eq_false_or_eq_true (dateMatchAt prev (c :: rest)) with hb | hb <;>
        simp [hb] at hp
      omega
    · have := ih (some c) (i + 1) p hp
      omega

lemma dateMatchPositions_sorted :
    ∀ (l : List Char) (prev : Option Char) (i : Nat),
      List.Pairwise (· < ·) (dateMatchPositions prev i l) := by
  intro l
  induction l with
  | nil => intro prev i; simp [dateMatchPositions]
  | cons c rest ih =>
    intro prev i
    rw [dateMatchPositions, List.pairwise_append]
    refine ⟨?_, ih (some c) (i + 1), ?_⟩
    · rcases Bool.eq_false_or_eq_true (dateMatchAt prev (c :: rest)) with hb | hb <;>
        simp [hb]
    · intro a ha b hb
      have hb' := dateMatchPositions_ge rest (some c) (i + 1) b hb
      rcases Bool.eq_false_or_eq_true (dateMatchAt prev (c :: rest)) with h' | h' <;>
        simp [h'] at ha
      omega

lemma allDateMatches_eq_map_positions :
    ∀ (l : List Char) (prev : Option Char) (i : Nat),
      allDateMatches prev l =
        (dateMatchPositions prev i l).map (fun p => String.mk ((l.drop (p - i)).take 10)) := by
  intro l
  induction l with
  | nil => intro prev i; rfl
  | cons c rest ih =>
    intro prev i
    rw [allDateMatches, dateMatchPositions, List.map_append]
    congr 1
    · rcases Bool.eq_false_or_eq_true (dateMatchAt prev (c :: rest)) with hb | hb <;>
        simp [hb, Nat.sub_self]
    · rw [ih (some c) (i + 1)]
      refine List.map_congr_left ?_
      intro p hp
      have hge := dateMatchPositions_ge rest (some c) (i + 1) p hp
      have hsub : p - i = (p - (i + 1)) + 1 := by omega
      rw [hsub, List.drop_succ_cons]

lemma codeMatchPositions_ge :
    ∀ (l : List Char) (i : Nat), ∀ p ∈ codeMatchPositions i l, i ≤ p := by
  intro l
  induction l with
  | nil => intro i p hp; simp [codeMatchPositions] at hp
  | cons c rest ih =>
    intro i p hp
    simp only [codeMatchPositions, List.mem_append] at hp
    rcases hp with hp | hp
    · rcases Bool.eq_false_or_eq_true (codeMatchAt (c :: rest)) with hb | hb <;>
        simp [hb] at hp
      omega
    · have := ih (i + 1) p hp
      omega

lemma codeMatchPositions_sorted :
    ∀ (l : List Char) (i : Nat), List.Pairwise (· < ·) (codeMatchPositions i l) := by
  intro l
  induction l with
  | nil => intro i; simp [codeMatchPositions]
  | cons c rest ih =>
    intro i
    rw [codeMatchPositions, List.pairwise_append]
    refine ⟨?_, ih (i + 1), ?_⟩
    · rcases Bool.eq_false_or_eq_true (codeMatchAt (c :: rest)) with hb | hb <;> simp [hb]
    · intro a ha b hb
      have hb' := codeMatchPositions_ge rest (i + 1) b hb
      rcases Bool.eq_false_or_eq_true (codeMatchAt (c :: rest)) with h' | h' <;>
        simp [h'] at ha
      omega

lemma allCodeMatches_eq_map_positions :
    ∀ (l : List Char) (i : Nat),
      allCodeMatches l =
        (codeMatchPositions i l).map (fun p => String.mk ((l.drop (p - i)).take 9)) := by
  intro l
  induction l with
  | nil => intro i; rfl
  | cons c rest ih =>
    intro i
    rw [allCodeMatches, codeMatchPositions, List.map_append]
    congr 1
    · rcases Bool.eq_false_or_eq_true (codeMatchAt (c :: rest)) with hb | hb <;>
        simp [hb, Nat.sub_self]
    · rw [ih (i + 1)]
      refine List.map_congr_left ?_
      intro p hp
      have hge := codeMatchPositions_ge rest (i + 1) p hp
      have hsub : p - i = (p - (i + 1)) + 1 := by omega
      rw [hsub, List.drop_succ_cons]

end Adventure

namespace Adventure

lemma findDateGroups_mem :
    ∀ (prev : Option Char) (l : List Char) (g : String × String × String),
      g ∈ findDateGroups prev l →
      ∃ pre post m1 m2 d1 d2 y1 y2 y3 y4,
        l = pre ++ [m1, m2, '/', d1, d2, '/', y1, y2, y3, y4] ++ post ∧
        g = (⟨[m1, m2]⟩, ⟨[d1, d2]⟩, ⟨[y1, y2, y3, y4]⟩) ∧
        monthOk m1 m2 = true ∧ dayOk d1 d2 = true ∧ yearOk y1 y2 y3 y4 = true := by
  intro prev l
  induction prev, l using findDateGroups.induct with
  | case1 x => intro g hg; simp [findDateGroups] at hg
  | case2 prev m1 m2 c1 d1 d2 c2 y1 y2 y3 y4 rest h ih =>
    intro g hg
    have hshape := h
    simp only [dateMatchAt, Bool.and_eq_true, beq_iff_eq, and_assoc] at h
    obtain ⟨hb, hm, hc1, hd, hc2, hy, ha⟩ := h
    subst hc1 hc2
    rw [findDateGroups.eq_2, if_pos hshape] at hg
    rcases List.mem_cons.mp hg with hg | hg
    · exact ⟨[], rest, m1, m2, d1, d2, y1, y2, y3, y4, by simp, hg, hm, hd, hy⟩
    · obtain ⟨pre, post, n1, n2, e1, e2, f1, f2, f3, f4, hl, hgeq, h1, h2, h3⟩ := ih g hg
      exact ⟨m1 :: m2 :: '/' :: d1 :: d2 :: '/' :: y1 :: y2 :: y3 :: y4 :: pre, post,
        n1, n2, e1, e2, f1, f2, f3, f4, by simp [hl], hgeq, h1, h2, h3⟩
  | case3 prev m1 m2 c1 d1 d2 c2 y1 y2 y3 y4 rest h ih =>
    intro g hg
    rw [findDateGroups.eq_2, if_neg h] at hg
    obtain ⟨pre, post, n1, n2, e1, e2, f1, f2, f3, f4, hl, hgeq, h1, h2, h3⟩ := ih g hg
    exact ⟨m1 :: pre, post, n1, n2, e1, e2, f1, f2, f3, f4, by simp [hl], hgeq, h1, h2, h3⟩
  | case4 x c rest h ih =>
    intro g hg
    rw [findDateGroups.eq_3 _ _ _ h] at hg
    obtain ⟨pre, post, n1, n2, e1, e2, f1, f2, f3, f4, hl, hgeq, h1, h2, h3⟩ := ih g hg
    exact ⟨c :: pre, post, n1, n2, e1, e2, f1, f2, f3, f4, by simp [hl], hgeq, h1, h2, h3⟩

lemma findCodes_mem :
    ∀ (l : List Char) (s : String),
      s ∈ findCodes l →
      ∃ pre post d1 d2 d3,
        l = pre ++ ['A', 'Z', 'M', 'A', 'R', '-', d1, d2, d3] ++ post ∧
        s = String.mk ['A', 'Z', 'M', 'A', 'R', '-', d1, d2, d3] ∧
        d1.isDigit = true ∧ d2.isDigit = true ∧ d3.isDigit = true := by
  intro l
  induction l using findCodes.induct with
  | case1 => intro s hs; simp [findCodes] at hs
  | case2 a z m a2 r hy d1 d2 d3 rest h ih =>
    intro s hs
    have hshape := h
    simp only [codeMatchAt, Bool.and_eq_true, beq_iff_eq, and_assoc] at h
    obtain ⟨ha, hz, hm, ha2, hr, hhy, h1, h2, h3⟩ := h
    subst ha hz hm ha2 hr hhy
    rw [findCodes.eq_2, if_pos hshape] at hs
    rcases List.mem_cons.mp hs with hs | hs
    · exact ⟨[], rest, d1, d2, d3, by simp, hs, h1, h2, h3⟩
    · obtain ⟨pre, post, e1, e2, e3, hl, hseq, g1, g2, g3⟩ := ih s hs
      exact ⟨'A' :: 'Z' :: 'M' :: 'A' :: 'R' :: '-' :: d1 :: d2 :: d3 :: pre, post,
        e1, e2, e3, by simp [hl], hseq, g1, g2, g3⟩
  | case3 a z m a2 r hy d1 d2 d3 rest h ih =>
    intro s hs
    rw [findCodes.eq_2, if_neg h] at hs
    obtain ⟨pre, post, e1, e2, e3, hl, hseq, g1, g2, g3⟩ := ih s hs
    exact ⟨a :: pre, post, e1, e2, e3, by simp [hl], hseq, g1, g2, g3⟩
  | case4 c rest h ih =>
    intro s hs
    rw [findCodes.eq_3 _ _ h] at hs
    obtain ⟨pre, post, e1, e2, e3, hl, hseq, g1, g2, g3⟩ := ih s hs
    exact ⟨c :: pre, post, e1, e2, e3, by simp [hl], hseq, g1, g2, g3⟩

end Adventure

namespace Adventure

lemma digitVal_eq (c : Char) : digitVal c = c.toNat - 48 := rfl

lemma monthOk_val {m1 m2 : Char} (h : monthOk m1 m2 = true) :
    1 ≤ 10 * digitVal m1 + digitVal m2 ∧ 10 * digitVal m1 + digitVal m2 ≤ 12 := by
  simp only [monthOk, Bool.or_eq_true, Bool.and_eq_true, beq_iff_eq,
    decide_eq_true_eq, and_assoc] at h
  rcases h with ⟨h1, h2, h3⟩ | ⟨h1, h2, h3⟩ <;> subst h1 <;>
    rw [digitVal_eq, digitVal_eq]
  · have b1 : 49 ≤ m2.toNat := h2
    have b2 : m2.toNat ≤ 57 := h3
    have e : ('0' : Char).toNat = 48 := by decide
    rw [e]
    constructor <;> omega
  · have b1 : 48 ≤ m2.toNat := h2
    have b2 : m2.toNat ≤ 50 := h3
    have e : ('1' : Char).toNat = 49 := by decide
    rw [e]
    constructor <;> omega

lemma dayOk_val {d1 d2 : Char} (h : dayOk d1 d2 = true) :
    1 ≤ 10 * digitVal d1 + digitVal d2 ∧ 10 * digitVal d1 + digitVal d2 ≤ 31 := by
  simp only [dayOk, Bool.or_eq_true, Bool.and_eq_true, beq_iff_eq,
    decide_eq_true_eq, and_assoc, or_assoc] at h
  rcases h with ⟨h1, h2, h3⟩ | ⟨h1, h2, h3⟩ | ⟨h1, h2⟩
  · subst h1
    rw [digitVal_eq, digitVal_eq]
    have b1 : 49 ≤ d2.toNat := h2
    have b2 : d2.toNat ≤ 57 := h3
    have e : ('0' : Char).toNat = 48 := by decide
    rw [e]
    constructor <;> omega
  · have b1 : 48 ≤ d2.toNat := h2
    have b2 : d2.toNat ≤ 57 := h3
    rcases h1 with h1 | h1 <;> subst h1 <;> rw [digitVal_eq, digitVal_eq]
    · have e : ('1' : Char).toNat = 49 := by decide
      rw [e]
      constructor <;> omega
    · have e : ('2' : Char).toNat = 50 := by decide
      rw [e]
      constructor <;> omega
  · subst h1
    rcases h2 with h2 | h2 <;> subst h2 <;> exact ⟨by decide, by decide⟩

lemma yearOk_val {y1 y2 y3 y4 : Char} (h : yearOk y1 y2 y3 y4 = true) :
    1000 ≤ 1000 * digitVal y1 + 100 * digitVal y2 + 10 * digitVal y3 + digitVal y4 ∧
    1000 * digitVal y1 + 100 * digitVal y2 + 10 * digitVal y3 + digitVal y4 ≤ 2999 := by
  obtain ⟨hy1, hy2, hy3, hy4⟩ := yearOk_shape h
  simp only [Char.isDigit, Bool.and_eq_true, decide_eq_true_eq] at hy2 hy3 hy4
  have b2a : 48 ≤ y2.toNat := hy2.1
  have b2b : y2.toNat ≤ 57 := hy2.2
  have b3a : 48 ≤ y3.toNat := hy3.1
  have b3b : y3.toNat ≤ 57 := hy3.2
  have b4a : 48 ≤ y4.toNat := hy4.1
  have b4b : y4.toNat ≤ 57 := hy4.2
  rcases hy1 with h1 | h1 <;> subst h1 <;>
    rw [digitVal_eq, digitVal_eq, digitVal_eq, digitVal_eq]
  · have e : ('1' : Char).toNat = 49 := by decide
    rw [e]
    constructor <;> omega
  · have e : ('2' : Char).toNat = 50 := by decide
    rw [e]
    constructor <;> omega

end Adventure

namespace Adventure

/-- C1 (amended): for every text, `extract_journal_dates` returns exactly the
boundary-delimited valid date tokens, unmodified, one for each position where
the pattern matches, visited left to right - so every valid date token flanked
on both sides by a word boundary (a position not flanked by a word character,
i.e. a letter, digit or underscore) appears at the output position given by
its relative order of appearance. -/
theorem extract_journal_dates_complete (text : String) :
    extract_journal_dates text = allDateMatches none text.data :=
  map_join_findDateGroups none text.data

/-- C1 counterexample: the token "01/02/2024" is lexically valid and flanked by
the non-alphanumeric character, underscore, on the left and the end of text on
the right, yet the extractor returns nothing, because the regex word boundary
also treats the underscore as a word character. -/
theorem underscore_boundary_counterexample :
    Char.isAlphanum '_' = false ∧
    monthOk '0' '1' = true ∧ dayOk '0' '2' = true ∧ yearOk '2' '0' '2' '4' = true ∧
    "_01/02/2024".data = '_' :: "01/02/2024".data ∧
    extract_journal_dates "_01/02/2024" = [] :=
  ⟨by decide, by decide, by decide, by decide, rfl, by decide⟩

/-- C2: every extracted date has month value 1-12, day value 1-31 and year
value 1000-2999 (so no 00/13+/32+/out-of-range field ever appears), and the
input "101/02/2020" yields nothing: no date is matched starting mid-token. -/
theorem extract_journal_dates_only_valid :
    (∀ text d : String, d ∈ extract_journal_dates text →
      ∃ m1 m2 d1 d2 y1 y2 y3 y4 : Char,
        d.data = [m1, m2, '/', d1, d2, '/', y1, y2, y3, y4] ∧
        1 ≤ 10 * digitVal m1 + digitVal m2 ∧ 10 * digitVal m1 + digitVal m2 ≤ 12 ∧
        1 ≤ 10 * digitVal d1 + digitVal d2 ∧ 10 * digitVal d1 + digitVal d2 ≤ 31 ∧
        1000 ≤ 1000 * digitVal y1 + 100 * digitVal y2 + 10 * digitVal y3 + digitVal y4 ∧
        1000 * digitVal y1 + 100 * digitVal y2 + 10 * digitVal y3 + digitVal y4 ≤ 2999) ∧
    extract_journal_dates "101/02/2020" = [] := by
  constructor
  · intro text d hd
    obtain ⟨g, hg, hjoin⟩ := List.mem_map.mp hd
    obtain ⟨pre, post, m1, m2, d1, d2, y1, y2, y3, y4, hl, hgeq, hm, hdy, hy⟩ :=
      findDateGroups_mem none text.data g hg
    subst hgeq
    obtain ⟨hm1, hm2⟩ := monthOk_val hm
    obtain ⟨hd1, hd2⟩ := dayOk_val hdy
    obtain ⟨hy1, hy2⟩ := yearOk_val hy
    exact ⟨m1, m2, d1, d2, y1, y2, y3, y4, by rw [← hjoin]; rfl,
      hm1, hm2, hd1, hd2, hy1, hy2⟩
  · decide

/-- C2 witness: the theorem applied to the concrete input "03/15/2024". -/
theorem extract_journal_dates_only_valid_witness :
    ∃ m1 m2 d1 d2 y1 y2 y3 y4 : Char,
      ("03/15/2024" : String).data = [m1, m2, '/', d1, d2, '/', y1, y2, y3, y4] ∧
      1 ≤ 10 * digitVal m1 + digitVal m2 ∧ 10 * digitVal m1 + digitVal m2 ≤ 12 ∧
      1 ≤ 10 * digitVal d1 + digitVal d2 ∧ 10 * digitVal d1 + digitVal d2 ≤ 31 ∧
      1000 ≤ 1000 * digitVal y1 + 100 * digitVal y2 + 10 * digitVal y3 + digitVal y4 ∧
      1000 * digitVal y1 + 100 * digitVal y2 + 10 * digitVal y3 + digitVal y4 ≤ 2999 :=
  extract_journal_dates_only_valid.1 "03/15/2024" "03/15/2024" (by decide)

/-- C3: the extractor returns exactly the left-to-right occurrences of
"AZMAR-" followed by three decimal digits, with no boundary requirement
(the position-by-position collector `allCodeMatches` agrees with the scan),
and the three boundary examples hold. -/
theorem extract_secret_codes_exact :
    (∀ text : String, extract_secret_codes text = allCodeMatches text.data) ∧
    extract_secret_codes "AZMAR-007" = ["AZMAR-007"] ∧
    extract_secret_codes "AZMAR-07" = [] ∧
    extract_secret_codes "AZMAR-0071" = ["AZMAR-007"] :=
  ⟨fun text => findCodes_eq_allCodeMatches text.data, by decide, by decide, by decide⟩

/-- C4: the worked end-to-end example from the spec. -/
theorem journal_example_extractions :
    extract_journal_dates
        "Visited on 03/15/2024 and again 13/40/2024, see AZMAR-042 and AZMAR-99." =
      ["03/15/2024"] ∧
    extract_secret_codes
        "Visited on 03/15/2024 and again 13/40/2024, see AZMAR-042 and AZMAR-99." =
      ["AZMAR-042"] :=
  ⟨by decide, by decide⟩

end Adventure

namespace Adventure

/-- C5: both extraction results list, in strictly increasing order of first
character position, the token found at each match position (so order follows
position of occurrence and duplicates are preserved); a text containing
"AZMAR-001" twice yields it twice. -/
theorem extraction_order_and_duplicates :
    (∀ text : String,
      extract_journal_dates text =
        (dateMatchPositions none 0 text.data).map
          (fun p => String.mk ((text.data.drop p).take 10)) ∧
      List.Pairwise (· < ·) (dateMatchPositions none 0 text.data) ∧
      extract_secret_codes text =
        (codeMatchPositions 0 text.data).map
          (fun p => String.mk ((text.data.drop p).take 9)) ∧
      List.Pairwise (· < ·) (codeMatchPositions 0 text.data)) ∧
    extract_secret_codes "AZMAR-001 and AZMAR-001" = ["AZMAR-001", "AZMAR-001"] := by
  constructor
  · intro text
    refine ⟨?_, dateMatchPositions_sorted text.data none 0, ?_,
      codeMatchPositions_sorted text.data 0⟩
    · rw [show extract_journal_dates text = allDateMatches none text.data from
        map_join_findDateGroups none text.data,
        allDateMatches_eq_map_positions text.data none 0]
      exact List.map_congr_left (fun p _ => by rw [Nat.sub_zero])
    · rw [show extract_secret_codes text = allCodeMatches text.data from
        findCodes_eq_allCodeMatches text.data,
        allCodeMatches_eq_map_positions text.data 0]
      exact List.map_congr_left (fun p _ => by rw [Nat.sub_zero])
  · decide

/-- C6: both extractors are total functions in this embedding; on the empty
string and on any text with no match position they return the empty list. -/
theorem extraction_total_empty :
    (extract_journal_dates "" = [] ∧ extract_secret_codes "" = []) ∧
    ∀ text : String,
      (dateMatchPositions none 0 text.data = [] → extract_journal_dates text = []) ∧
      (codeMatchPositions 0 text.data = [] → extract_secret_codes text = []) := by
  refine ⟨⟨rfl, rfl⟩, ?_⟩
  intro text
  constructor
  · intro hp
    rw [show extract_journal_dates text = allDateMatches none text.data from
      map_join_findDateGroups none text.data,
      allDateMatches_eq_map_positions text.data none 0, hp]
    rfl
  · intro hp
    rw [show extract_secret_codes text = allCodeMatches text.data from
      findCodes_eq_allCodeMatches text.data,
      allCodeMatches_eq_map_positions text.data 0, hp]
    rfl

/-- C6 witness: a text with no occurrence of either pattern. -/
theorem extraction_total_empty_witness :
    extract_journal_dates "the tomb lay empty" = [] ∧
    extract_secret_codes "the tomb lay empty" = [] :=
  ⟨(extraction_total_empty.2 "the tomb lay empty").1 (by decide),
   (extraction_total_empty.2 "the tomb lay empty").2 (by decide)⟩

/-- C7: extraction is a pure function of the text passed to each call: in
any sequence of calls, two calls receiving equal inputs give equal outputs,
independent of their position in the sequence. -/
theorem extraction_deterministic (ts : List String) (i j : Nat)
    (h : ts[i]? = ts[j]?) :
    (ts.map extract_journal_dates)[i]? = (ts.map extract_journal_dates)[j]? ∧
    (ts.map extract_secret_codes)[i]? = (ts.map extract_secret_codes)[j]? := by
  simp only [List.getElem?_map]
  rw [h]
  exact ⟨rfl, rfl⟩

/-- C7 witness: first and third call of a concrete call sequence. -/
theorem extraction_deterministic_witness :
    ((["AZMAR-123", "x", "AZMAR-123"].map extract_journal_dates)[0]? =
      (["AZMAR-123", "x", "AZMAR-123"].map extract_journal_dates)[2]?) ∧
    ((["AZMAR-123", "x", "AZMAR-123"].map extract_secret_codes)[0]? =
      (["AZMAR-123", "x", "AZMAR-123"].map extract_secret_codes)[2]?) :=
  extraction_deterministic ["AZMAR-123", "x", "AZMAR-123"] 0 2 (by decide)

/-- C8: the tab-separated loader on the spec's example: first line is the
header, every line splits on the tab character, and the single data row maps
Name to "Urn", Location to "ChamberA" and Depth to "1.2". -/
theorem load_location_notes_example :
    load_location_notes "Name\tLocation\tDepth\nUrn\tChamberA\t1.2" =
      [[("Name", "Urn"), ("Location", "ChamberA"), ("Depth", "1.2")]] := by
  decide

/-- C9: code matching is case sensitive - every extracted code starts with
the exact uppercase prefix characters A, Z, M, A, R, hyphen - and lowercased
variants yield nothing. -/
theorem codes_case_sensitive :
    (∀ text s : String, s ∈ extract_secret_codes text →
      ∃ d1 d2 d3 : Char,
        s = String.mk ['A', 'Z', 'M', 'A', 'R', '-', d1, d2, d3] ∧
        d1.isDigit = true ∧ d2.isDigit = true ∧ d3.isDigit = true) ∧
    extract_secret_codes "azmar-123" = [] ∧
    extract_secret_codes "Azmar-123" = [] := by
  refine ⟨?_, by decide, by decide⟩
  intro text s hs
  obtain ⟨pre, post, d1, d2, d3, hl, hseq, h1, h2, h3⟩ := findCodes_mem text.data s hs
  exact ⟨d1, d2, d3, hseq, h1, h2, h3⟩

/-- C9 witness: the theorem applied to the concrete input "AZMAR-007". -/
theorem codes_case_sensitive_witness :
    ∃ d1 d2 d3 : Char,
      ("AZMAR-007" : String) = String.mk ['A', 'Z', 'M', 'A', 'R', '-', d1, d2, d3] ∧
      d1.isDigit = true ∧ d2.isDigit = true ∧ d3.isDigit = true :=
  codes_case_sensitive.1 "AZMAR-007" "AZMAR-007" (by decide)

/-- C10: every extracted date is a contiguous substring of the input text,
ten characters long, with the slash at offsets 2 and 5 - the three captured
fields rejoined with "/" reconstruct exactly the matched span. -/
theorem dates_substring_shape (text d : String)
    (hd : d ∈ extract_journal_dates text) :
    (∃ pre post : List Char, text.data = pre ++ d.data ++ post) ∧
    d.data.length = 10 ∧
    ∃ m1 m2 d1 d2 y1 y2 y3 y4 : Char,
      d.data = [m1, m2, '/', d1, d2, '/', y1, y2, y3, y4] := by
  obtain ⟨g, hg, hjoin⟩ := List.mem_map.mp hd
  obtain ⟨pre, post, m1, m2, d1, d2, y1, y2, y3, y4, hl, hgeq, hm, hdy, hy⟩ :=
    findDateGroups_mem none text.data g hg
  subst hgeq
  have hdata : d.data = [m1, m2, '/', d1, d2, '/', y1, y2, y3, y4] := by
    rw [← hjoin]; rfl
  exact ⟨⟨pre, post, by rw [hdata, hl]⟩, by rw [hdata]; rfl,
    m1, m2, d1, d2, y1, y2, y3, y4, hdata⟩

/-- C10 witness: the theorem applied to a concrete text and its extracted
date. -/
theorem dates_substring_shape_witness :
    (∃ pre post : List Char,
      ("on 03/15/2024!" : String).data = pre ++ ("03/15/2024" : String).data ++ post) ∧
    ("03/15/2024" : String).data.length = 10 ∧
    ∃ m1 m2 d1 d2 y1 y2 y3 y4 : Char,
      ("03/15/2024" : String).data = [m1, m2, '/', d1, d2, '/', y1, y2, y3, y4] :=
  dates_substring_shape "on 03/15/2024!" "03/15/2024" (by decide)

end Adventure
